import Mathlib

/-!
Shallow embedding of `hfnet/evaluation/utils/localization.py` and verification
of its specification.

The embedding follows the Python source line by line:

* `covis_clustering` (source lines 44-76): breadth-first clustering of frames
  into covisibility components, with the sort by decreasing component size.
* `match_against_place` (source lines 79-138): descriptor pooling over the
  frames of a place, optional observation expansion (`expand_obs`), and the
  dual nearest-neighbour acceptance rule.  The OpenCV brute-force matcher
  (`cv2.BFMatcher(cv2.NORM_L2).knnMatch`, an external collaborator) is
  modelled by an explicit 2-nearest-neighbour computation over an abstract
  distance oracle `dist` standing for the Euclidean distances between query
  and pool descriptors; `matches_cv2np` (repository code living outside the
  provided sources) is modelled from the spec as the conversion of each match
  to its `(queryIdx, trainIdx)` pair together with its distance.
* `do_pnp` (source lines 141-175): acceptance policy over the outcome of the
  external RANSAC solver (`cv2.solvePnPRansac`) and the iterative refinement
  (`cv2.solvePnP`), both modelled as abstract capabilities exactly as the
  spec's design notes prescribe.

Machine floats of the source are embedded as rationals; Python exceptions are
embedded as `Option`/`Except` failure values.
-/

namespace Localization

/-- Data model: one entry of the local database (`LocalDbItem` of
`db_management`, a named tuple with fields `landmark_ids`, `descriptors`,
`keypoints`).  Descriptors are kept abstract in the type `Desc`. -/
structure LocalDbItem (Desc : Type) where
  landmark_ids : List ℤ
  descriptors : List Desc
  keypoints : List (ℚ × ℚ)

/-- Data model: one 3D point of the reconstruction, as consulted by
`covis_clustering` (`points[lm].image_ids`) and by the observation expansion
(`graph[lm].image_ids`, `graph[lm].point2D_idxs`). -/
structure PointItem where
  image_ids : List ℕ
  point2D_idxs : List ℕ

/-- Data model: per-frame reconstruction info used by the observation
expansion (`model_info[f_id].point3D_ids`). -/
structure ModelInfoItem where
  point3D_ids : List ℤ

/-- Result record of pose estimation (source lines 10-11):
`LocResult = namedtuple('LocResult', ['success', 'num_inliers',
'inlier_ratio', 'T'])`. -/
structure LocResult (Pose : Type) where
  success : Bool
  num_inliers : ℕ
  inlier_ratio : ℚ
  T : Option Pose

/-- Failure result (source line 12): `loc_failure = LocResult(False, 0, 0,
None)`. -/
def loc_failure (Pose : Type) : LocResult Pose :=
  ⟨false, 0, 0, none⟩

/-- Configuration of `do_pnp`.  `additional_min_inliers` is `Option ℕ` so
that both an absent value (`None`, falsy in Python) and an explicit `0`
(also falsy) can be distinguished from a configured positive threshold. -/
structure PnPConfig where
  reproj_error : ℚ
  min_inliers : ℕ
  min_inlier_ratio : ℚ
  additional_min_inliers : Option ℕ

/-- Output of the external robust solver `cv2.solvePnPRansac` (success flag,
initial pose, inlier index list), modelled as an abstract capability per the
spec's design notes. -/
structure RansacOutput (Pose : Type) where
  success : Bool
  pose : Pose
  inliers : List ℕ

/-- Python truthiness of `config['additional_min_inliers']` as tested by
`if config['additional_min_inliers']:` (source line 156): `None` and `0` are
falsy, any other integer is truthy. -/
def additionalTruthy : Option ℕ → Bool
  | none => false
  | some a => a != 0

/-- Embedding of `do_pnp` (source lines 141-175).  `numKpts` is
`len(kpts)`; `ransac` is the outcome of `cv2.solvePnPRansac`; `refine`
models `cv2.solvePnP(..., useExtrinsicGuess=True, flags=SOLVEPNP_ITERATIVE)`
on the inlier correspondences, returning its convergence flag and refined
pose; `invPose` models `np.linalg.inv` turning `query_T_w` into `w_T_query`.
The `assert ret` of source line 163 is embedded as `Except.error`. -/
def do_pnp {Pose : Type} (numKpts : ℕ) (ransac : RansacOutput Pose)
    (refine : Pose → List ℕ → Bool × Pose) (invPose : Pose → Pose)
    (config : PnPConfig) : Except String (LocResult Pose × List ℕ) :=
  if ransac.success then
    let inliers := ransac.inliers
    let num_inliers := inliers.length
    let inlier_ratio : ℚ := (num_inliers : ℚ) / (numKpts : ℚ)
    let success := ransac.success && decide (config.min_inliers ≤ num_inliers)
      && decide (config.min_inlier_ratio ≤ inlier_ratio)
    let success := if additionalTruthy config.additional_min_inliers then
        success || decide (config.additional_min_inliers.getD 0 ≤ num_inliers)
      else success
    match refine ransac.pose inliers with
    | (true, refined) =>
        .ok (⟨success, num_inliers, inlier_ratio, some (invPose refined)⟩, inliers)
    | (false, _) => .error "refinement failed to converge"
  else
    .ok (loc_failure Pose, [])

/-- C1: whenever the raw RANSAC solver reports success and `do_pnp` returns a
result, the result's success flag is true exactly when (inlier count at least
`min_inliers` and inlier ratio at least `min_inlier_ratio`) or
(`additional_min_inliers` is configured to a truthy value and the inlier
count reaches it); in particular an inlier count below `min_inliers` and
below any configured `additional_min_inliers` yields `success = false`. -/
theorem do_pnp_success_iff {Pose : Type} (numKpts : ℕ)
    (ransac : RansacOutput Pose) (refine : Pose → List ℕ → Bool × Pose)
    (invPose : Pose → Pose) (config : PnPConfig)
    (hraw : ransac.success = true) (res : LocResult Pose) (inl : List ℕ)
    (hok : do_pnp numKpts ransac refine invPose config
      = Except.ok (res, inl)) :
    res.success = true ↔
      ((config.min_inliers ≤ ransac.inliers.length ∧
        config.min_inlier_ratio
          ≤ (ransac.inliers.length : ℚ) / (numKpts : ℚ)) ∨
       (∃ a, config.additional_min_inliers = some a ∧ a ≠ 0 ∧
        a ≤ ransac.inliers.length)) := by
  unfold do_pnp at hok
  rw [hraw] at hok
  simp only [if_true] at hok
  rcases href : refine ransac.pose ransac.inliers with ⟨ret, refined⟩
  rw [href] at hok
  cases ret with
  | false => simp at hok
  | true =>
      simp only [Except.ok.injEq, Prod.mk.injEq] at hok
      have hs := congrArg LocResult.success hok.1
      simp only at hs
      rw [← hs]
      cases hadd : config.additional_min_inliers with
      | none => simp [additionalTruthy]
      | some a =>
          rcases Nat.eq_zero_or_pos a with ha | ha
          · subst ha
            simp [additionalTruthy]
          · have ha' : a ≠ 0 := Nat.pos_iff_ne_zero.mp ha
            simp only [additionalTruthy, hadd, bne_iff_ne, ne_eq, ha',
              not_false_eq_true, if_true, Option.getD_some, Bool.or_eq_true,
              Bool.and_eq_true, decide_eq_true_eq, Option.some.injEq]
            constructor
            · rintro (⟨⟨-, h1⟩, h2⟩ | h3)
              · exact Or.inl ⟨h1, h2⟩
              · exact Or.inr ⟨a, rfl, ha', h3⟩
            · rintro (⟨h1, h2⟩ | ⟨a', ha'', -, h3⟩)
              · exact Or.inl ⟨⟨trivial, h1⟩, h2⟩
              · exact Or.inr (ha'' ▸ h3)

/-- Witness for C1 at a concrete input: four keypoints, three inliers,
`min_inliers = 2`, `min_inlier_ratio = 1/2`, no additional threshold. -/
theorem do_pnp_success_iff_witness :
    (LocResult.success (⟨true, 3, 3 / 4, some ()⟩ : LocResult Unit) = true ↔
      ((2 ≤ ([0, 1, 2] : List ℕ).length ∧
        (1 / 2 : ℚ) ≤ (([0, 1, 2] : List ℕ).length : ℚ) / ((4 : ℕ) : ℚ)) ∨
       (∃ a, (none : Option ℕ) = some a ∧ a ≠ 0 ∧
        a ≤ ([0, 1, 2] : List ℕ).length))) :=
  do_pnp_success_iff 4 ⟨true, (), [0, 1, 2]⟩ (fun p _ => (true, p)) id
    ⟨3, 2, 1 / 2, none⟩ rfl ⟨true, 3, 3 / 4, some ()⟩ [0, 1, 2] (by norm_num [do_pnp, additionalTruthy])

/-- C6: when the raw RANSAC solve reports failure, `do_pnp` returns (without
raising) the failure result: success false, zero inliers, zero inlier ratio,
no transform, together with an empty inlier index list. -/
theorem do_pnp_raw_failure {Pose : Type} (numKpts : ℕ)
    (ransac : RansacOutput Pose) (refine : Pose → List ℕ → Bool × Pose)
    (invPose : Pose → Pose) (config : PnPConfig)
    (hraw : ransac.success = false) :
    do_pnp numKpts ransac refine invPose config
      = Except.ok (⟨false, 0, 0, none⟩, ([] : List ℕ)) := by
  unfold do_pnp
  rw [hraw]
  simp [loc_failure]

/-- Witness for C6 at a concrete input. -/
theorem do_pnp_raw_failure_witness :
    do_pnp 4 (⟨false, (), []⟩ : RansacOutput Unit) (fun p _ => (true, p)) id
      ⟨3, 2, 1 / 2, none⟩ = Except.ok (⟨false, 0, 0, none⟩, ([] : List ℕ)) :=
  do_pnp_raw_failure 4 ⟨false, (), []⟩ (fun p _ => (true, p)) id
    ⟨3, 2, 1 / 2, none⟩ rfl

/-- C7: when the raw solve succeeds but the iterative refinement on the
inliers does not converge, `do_pnp` raises (the embedded `assert ret`)
instead of returning a result. -/
theorem do_pnp_refine_divergence {Pose : Type} (numKpts : ℕ)
    (ransac : RansacOutput Pose) (refine : Pose → List ℕ → Bool × Pose)
    (invPose : Pose → Pose) (config : PnPConfig)
    (hraw : ransac.success = true)
    (href : (refine ransac.pose ransac.inliers).1 = false) :
    do_pnp numKpts ransac refine invPose config
      = Except.error "refinement failed to converge" := by
  unfold do_pnp
  rw [hraw]
  simp only [if_true]
  rcases h2 : refine ransac.pose ransac.inliers with ⟨ret, refined⟩
  rw [h2] at href
  simp only at href
  subst href
  rfl

/-- Witness for C7 at a concrete input with a diverging refinement. -/
theorem do_pnp_refine_divergence_witness :
    do_pnp 4 (⟨true, (), [0, 1, 2]⟩ : RansacOutput Unit) (fun p _ => (false, p)) id
      ⟨3, 2, 1 / 2, none⟩ = Except.error "refinement failed to converge" :=
  do_pnp_refine_divergence 4 ⟨true, (), [0, 1, 2]⟩ (fun p _ => (false, p)) id
    ⟨3, 2, 1 / 2, none⟩ rfl rfl

/-- C10: configuring `additional_min_inliers` as `0` behaves exactly like
leaving it unset (Python truthiness makes the override branch dead), and in
particular a raw success whose inlier count is below `min_inliers` or whose
ratio is below `min_inlier_ratio` is rejected. -/
theorem do_pnp_additional_zero {Pose : Type} (numKpts : ℕ)
    (ransac : RansacOutput Pose) (refine : Pose → List ℕ → Bool × Pose)
    (invPose : Pose → Pose) (re : ℚ) (mi : ℕ) (mr : ℚ) :
    do_pnp numKpts ransac refine invPose ⟨re, mi, mr, some 0⟩
      = do_pnp numKpts ransac refine invPose ⟨re, mi, mr, none⟩ ∧
    (ransac.success = true →
      (ransac.inliers.length < mi ∨
        (ransac.inliers.length : ℚ) / (numKpts : ℚ) < mr) →
      ∀ (res : LocResult Pose) (inl : List ℕ),
        do_pnp numKpts ransac refine invPose ⟨re, mi, mr, some 0⟩
          = Except.ok (res, inl) → res.success = false) := by
  constructor
  · unfold do_pnp
    simp [additionalTruthy]
  · intro hraw hbelow res inl hok
    have hiff := do_pnp_success_iff numKpts ransac refine invPose
      ⟨re, mi, mr, some 0⟩ hraw res inl hok
    rcases hsucc : res.success with _ | _
    · rfl
    · exfalso
      have := hiff.mp hsucc
      rcases this with ⟨h1, h2⟩ | ⟨a, ha, hne, _⟩
      · have h1' : mi ≤ ransac.inliers.length := h1
        have h2' : mr ≤ (ransac.inliers.length : ℚ) / (numKpts : ℚ) := h2
        rcases hbelow with h | h
        · omega
        · exact absurd h2' (not_le.mpr h)
      · have ha' : (some 0 : Option ℕ) = some a := ha
        simp only [Option.some.injEq] at ha'
        exact hne ha'.symm

/-- Witness for C10 at a concrete input: two inliers with
`min_inliers = 5`. -/
theorem do_pnp_additional_zero_witness :
    (do_pnp 4 (⟨true, (), [0, 1]⟩ : RansacOutput Unit) (fun p _ => (true, p)) id
        ⟨3, 5, 1 / 2, some 0⟩
      = do_pnp 4 (⟨true, (), [0, 1]⟩ : RansacOutput Unit) (fun p _ => (true, p)) id
        ⟨3, 5, 1 / 2, none⟩) ∧
    (LocResult.success (⟨false, 2, 2 / 4, some ()⟩ : LocResult Unit) = false) := by
  have h := do_pnp_additional_zero 4 (⟨true, (), [0, 1]⟩ : RansacOutput Unit)
    (fun p _ => (true, p)) id 3 5 (1 / 2)
  refine ⟨h.1, ?_⟩
  refine h.2 rfl (Or.inl (by norm_num)) ⟨false, 2, 2 / 4, some ()⟩ [0, 1] ?_
  norm_num [do_pnp, additionalTruthy]

/-- First index attaining the minimum of `d` over the index list `l`, ties
resolved to the earlier index (the brute-force matcher scans the pool in
order and keeps the first strictly better candidate). -/
def minIdxBy (d : ℕ → ℚ) : List ℕ → Option ℕ
  | [] => none
  | i :: is =>
    match minIdxBy d is with
    | none => some i
    | some j => if d i ≤ d j then some i else some j

/-- Indices of the two nearest pool descriptors for one query descriptor:
models `cv2.BFMatcher(cv2.NORM_L2).knnMatch(..., k=2)` (source lines
112-114) over `poolLen` pool descriptors, `d j` being the Euclidean distance
from the query descriptor to pool descriptor `j`. -/
def knnPair (d : ℕ → ℚ) (poolLen : ℕ) : Option (ℕ × ℕ) :=
  match minIdxBy d (List.range poolLen) with
  | none => none
  | some i1 =>
    match minIdxBy d ((List.range poolLen).filter (fun j => decide (j ≠ i1))) with
    | none => none
    | some i2 => some (i1, i2)

/-- Acceptance test of source lines 118-119: the two nearest neighbours carry
the same landmark id, or the distance ratio `dist1/dist2` is strictly below
the threshold. -/
def goodMatch (placeLms : List ℤ) (ratio_thresh : ℚ) (d : ℕ → ℚ)
    (i1 i2 : ℕ) : Bool :=
  decide (placeLms.getD i1 0 = placeLms.getD i2 0)
    || decide (d i1 / d i2 < ratio_thresh)

/-- Matching core of source lines 112-120: run the 2-nearest-neighbour
matcher for every query descriptor (the `matches_cv2np` conversion, modelled
from the spec, turns each match into its `(queryIdx, trainIdx)` pair and
distance), keep the pairs passing `goodMatch`.  A query for which the
matcher cannot produce two neighbours aborts (`none`). -/
def matchPool (queryLen : ℕ) (dist : ℕ → ℕ → ℚ) (placeLms : List ℤ)
    (poolLen : ℕ) (ratio_thresh : ℚ) : Option (List (ℕ × ℕ)) :=
  ((List.range queryLen).mapM
      (fun q => (knnPair (dist q) poolLen).map (fun p => (q, p)))).map
    (fun l => l.filterMap (fun t =>
      if goodMatch placeLms ratio_thresh (dist t.1) t.2.1 t.2.2 then
        some (t.1, t.2.1)
      else none))

/-- Pooled landmark ids of a place (source line 83):
`np.concatenate([db.landmark_ids for db in place_db])`. -/
def placeLmsOf {Desc : Type} (frameIds : List ℕ)
    (localDb : ℕ → LocalDbItem Desc) : List ℤ :=
  (frameIds.map (fun f => (localDb f).landmark_ids)).flatten

/-- Pooled descriptors of a place (source line 84):
`np.concatenate([db.descriptors for db in place_db])`. -/
def placeDescOf {Desc : Type} (frameIds : List ℕ)
    (localDb : ℕ → LocalDbItem Desc) : List Desc :=
  (frameIds.map (fun f => (localDb f).descriptors)).flatten

/-- Observation-expansion targets (source lines 95-99): for every landmark of
the pool, in pool order, every frame observing it (zipping `image_ids` with
`point2D_idxs` exactly as the source does) that is not part of the place,
as a `(landmark, frame)` pair. -/
def obsTargets (frameIds : List ℕ) (graph : ℤ → PointItem)
    (placeLms : List ℤ) : List (ℤ × ℕ) :=
  placeLms.flatMap (fun lm =>
    ((graph lm).image_ids.zip (graph lm).point2D_idxs).filterMap (fun p =>
      if p.1 ∈ frameIds then none else some (lm, p.1)))

/-- Descriptor index of landmark `lm` in frame `f` (source lines 100-101):
first position of `lm` among the positive entries of the frame's
`point3D_ids`; `none` embeds the IndexError raised by `np.where(...)[0][0]`
on an empty result. -/
def lookupDescIdx (modelInfo : ℕ → ModelInfoItem) (f : ℕ) (lm : ℤ) :
    Option ℕ :=
  ((modelInfo f).point3D_ids.filter (fun x => decide (0 < x))).findIdx?
    (fun x => x == lm)

/-- One pool entry appended by the expansion for the target `(lm, f)`
(source lines 99-107): the landmark id paired with
`local_db[f].descriptors[desc_idx]`. -/
def obsEntry {Desc : Type} (localDb : ℕ → LocalDbItem Desc)
    (modelInfo : ℕ → ModelInfoItem) (t : ℤ × ℕ) : Option (ℤ × Desc) := do
  let d ← lookupDescIdx modelInfo t.2 t.1
  let desc ← (localDb t.2).descriptors.get? d
  pure (t.1, desc)

/-- All entries appended by the observation expansion (source lines 92-109);
a failed lookup anywhere aborts the call, as the corresponding Python
exception would. -/
def expandEntries {Desc : Type} (frameIds : List ℕ)
    (localDb : ℕ → LocalDbItem Desc) (graph : ℤ → PointItem)
    (modelInfo : ℕ → ModelInfoItem) (placeLms : List ℤ) :
    Option (List (ℤ × Desc)) :=
  (obsTargets frameIds graph placeLms).mapM (obsEntry localDb modelInfo)

/-- Pool construction of `match_against_place` (source lines 82-109): the
concatenated landmark ids and descriptors of the place, optionally extended
by the observation expansion.  `none` embeds a raised exception inside the
expansion: a failed lookup (lines 100-101, 106), or — when the expansion
finds no new observation at all — the ValueError raised by
`np.append(place_desc, [], axis=0)` (source lines 104-107), whose empty
second argument is a 1-D array that cannot be concatenated along axis 0 to
the 2-D descriptor pool. -/
def poolOf {Desc : Type} (frameIds : List ℕ)
    (localDb : ℕ → LocalDbItem Desc) (expand_obs : Bool)
    (graph : ℤ → PointItem) (modelInfo : ℕ → ModelInfoItem) :
    Option (List ℤ × List Desc) :=
  let placeLms0 := placeLmsOf frameIds localDb
  let placeDesc0 := placeDescOf frameIds localDb
  if expand_obs then
    match expandEntries frameIds localDb graph modelInfo placeLms0 with
    | none => none
    | some entries =>
        if entries.isEmpty then none
        else
          some (placeLms0 ++ entries.map Prod.fst,
            placeDesc0 ++ entries.map Prod.snd)
  else some (placeLms0, placeDesc0)

/-- Embedding of `match_against_place` (source lines 79-138) without the
optional debug side channel.  The result is the accepted match list together
with the pooled landmark ids; `none` embeds a raised exception — in
particular `np.concatenate` on the empty list of arrays (empty `frame_ids`,
source line 83) raises `ValueError` before anything else happens, and the
expansion may raise inside `poolOf`.  `dist q j` stands for the Euclidean
distance computed by the external matcher between query descriptor `q` and
(expanded) pool descriptor `j`. -/
def match_against_place {Desc : Type} (frameIds : List ℕ)
    (localDb : ℕ → LocalDbItem Desc) (queryDesc : List Desc)
    (ratio_thresh : ℚ) (dist : ℕ → ℕ → ℚ) (expand_obs : Bool)
    (graph : ℤ → PointItem) (modelInfo : ℕ → ModelInfoItem) :
    Option (List (ℕ × ℕ) × List ℤ) :=
  if frameIds.isEmpty then none
  else
    match poolOf frameIds localDb expand_obs graph modelInfo with
    | none => none
    | some (placeLms, placeDesc) =>
        if 0 < queryDesc.length ∧ 1 < placeDesc.length then
          match matchPool queryDesc.length dist placeLms placeDesc.length
              ratio_thresh with
          | none => none
          | some ms => some (ms, placeLms)
        else
          some ([], placeLms)

/-- Helper: a monadic map over `Option` whose steps all succeed pointwise
returns the pointwise results. -/
theorem mapM_option_eq_some_map {α β : Type} (f : α → Option β) (g : α → β) :
    ∀ l : List α, (∀ a ∈ l, f a = some (g a)) → l.mapM f = some (l.map g) := by
  intro l
  induction l with
  | nil => intro _; rfl
  | cons a l ih =>
      intro h
      rw [List.mapM_cons, h a (List.mem_cons_self a l),
        ih (fun x hx => h x (List.mem_cons_of_mem a hx))]
      rfl

/-- Helper: `minIdxBy` returns an element of its input list. -/
theorem minIdxBy_mem (d : ℕ → ℚ) :
    ∀ (l : List ℕ) (i : ℕ), minIdxBy d l = some i → i ∈ l := by
  intro l
  induction l with
  | nil => intro i h; simp [minIdxBy] at h
  | cons a l ih =>
      intro i h
      rw [minIdxBy] at h
      rcases hm : minIdxBy d l with _ | j
      · rw [hm] at h
        simp only [Option.some.injEq] at h
        exact h ▸ List.mem_cons_self a l
      · rw [hm] at h
        by_cases hd : d a ≤ d j
        · simp only [hd, if_true, Option.some.injEq] at h
          exact h ▸ List.mem_cons_self a l
        · simp only [hd, if_false, Option.some.injEq] at h
          exact h ▸ List.mem_cons_of_mem a (ih j hm)

/-- Helper: `minIdxBy` succeeds on a non-empty list. -/
theorem minIdxBy_isSome (d : ℕ → ℚ) :
    ∀ l : List ℕ, l ≠ [] → (minIdxBy d l).isSome := by
  intro l
  cases l with
  | nil => intro h; exact absurd rfl h
  | cons a l =>
      intro _
      rw [minIdxBy]
      rcases minIdxBy d l with _ | j
      · rfl
      · by_cases hd : d a ≤ d j <;> simp [hd]

/-- Helper: with a pool of at least two descriptors, the 2-nearest-neighbour
computation succeeds. -/
theorem knnPair_isSome (d : ℕ → ℚ) (poolLen : ℕ) (h2 : 2 ≤ poolLen) :
    ∃ p : ℕ × ℕ, knnPair d poolLen = some p := by
  have hne : List.range poolLen ≠ [] := by
    apply List.ne_nil_of_mem (a := 0)
    simp only [List.mem_range]
    omega
  rcases hs1 : minIdxBy d (List.range poolLen) with _ | i1
  · have := minIdxBy_isSome d (List.range poolLen) hne
    rw [hs1] at this
    simp at this
  · have hi1 : i1 ∈ List.range poolLen := minIdxBy_mem d _ i1 hs1
    have hmem : (if i1 = 0 then 1 else 0) ∈
        (List.range poolLen).filter (fun j => decide (j ≠ i1)) := by
      rw [List.mem_filter]
      by_cases h0 : i1 = 0
      · subst h0
        simp only [if_true, List.mem_range, decide_eq_true_eq]
        omega
      · simp only [h0, if_false, List.mem_range, decide_eq_true_eq]
        constructor
        · omega
        · exact fun h => h0 h.symm
    have hne2 := List.ne_nil_of_mem hmem
    have hs2' := minIdxBy_isSome d _ hne2
    rcases hs2 : minIdxBy d
        ((List.range poolLen).filter (fun j => decide (j ≠ i1))) with _ | i2
    · rw [hs2] at hs2'
      simp at hs2'
    · refine ⟨(i1, i2), ?_⟩
      rw [knnPair, hs1]
      dsimp only
      rw [hs2]

/-- C2: with a non-empty place, a non-empty query set and a pool of at least
two descriptors, the match for query descriptor `q` whose two nearest pool
neighbours are `i1` (nearest) and `i2` (second nearest) is accepted exactly
when the two neighbours carry the same landmark id or the distance ratio is
strictly below `ratio_thresh`; every accepted pair is of the form
(query index, nearest pool index). -/
theorem match_against_place_accept_iff {Desc : Type} (frameIds : List ℕ)
    (localDb : ℕ → LocalDbItem Desc) (queryDesc : List Desc)
    (ratio_thresh : ℚ) (dist : ℕ → ℕ → ℚ) (graph : ℤ → PointItem)
    (modelInfo : ℕ → ModelInfoItem) (q i1 i2 : ℕ)
    (hne : frameIds ≠ [])
    (hq : q < queryDesc.length)
    (hpool : 1 < (placeDescOf frameIds localDb).length)
    (hknn : knnPair (dist q) (placeDescOf frameIds localDb).length
      = some (i1, i2)) :
    ∃ ms,
      match_against_place frameIds localDb queryDesc ratio_thresh dist false
          graph modelInfo = some (ms, placeLmsOf frameIds localDb) ∧
      ((q, i1) ∈ ms ↔
        ((placeLmsOf frameIds localDb).getD i1 0
            = (placeLmsOf frameIds localDb).getD i2 0 ∨
         dist q i1 / dist q i2 < ratio_thresh)) ∧
      (∀ m ∈ ms, ∃ j2,
        knnPair (dist m.1) (placeDescOf frameIds localDb).length
          = some (m.2, j2) ∧ m.1 < queryDesc.length) := by
  set L := placeLmsOf frameIds localDb with hL
  set n := (placeDescOf frameIds localDb).length with hn
  have h2n : 2 ≤ n := hpool
  have hsome : ∀ q' : ℕ, ∃ pr : ℕ × ℕ, knnPair (dist q') n = some pr :=
    fun q' => knnPair_isSome (dist q') n h2n
  set p : ℕ → ℕ × ℕ := fun q' => (knnPair (dist q') n).getD (0, 0) with hp
  have hpeq : ∀ q', knnPair (dist q') n = some (p q') := by
    intro q'
    rcases hsome q' with ⟨pr, hpr⟩
    rw [hpr, hp]
    simp only [hpr, Option.getD_some]
  have hpq : p q = (i1, i2) := by
    have := hpeq q
    rw [hknn] at this
    exact (Option.some.injEq _ _).mp this.symm
  have hmapM : (List.range queryDesc.length).mapM
      (fun q' => (knnPair (dist q') n).map (fun pr => (q', pr)))
      = some ((List.range queryDesc.length).map (fun q' => (q', p q'))) := by
    apply mapM_option_eq_some_map
    intro a _
    rw [hpeq a]
    rfl
  set ms := (List.range queryDesc.length).filterMap
      (fun q' => if goodMatch L ratio_thresh (dist q') (p q').1 (p q').2 then
        some (q', (p q').1) else none) with hms
  have hmp2 : matchPool queryDesc.length dist L n ratio_thresh = some ms := by
    rw [matchPool, hmapM]
    simp only [Option.map_some', List.filterMap_map]
    rfl
  have hempty : frameIds.isEmpty = false := List.isEmpty_eq_false.mpr hne
  refine ⟨ms, ?_, ?_, ?_⟩
  · have hpool0 : poolOf frameIds localDb false graph modelInfo
        = some (L, placeDescOf frameIds localDb) := rfl
    rw [match_against_place, hempty]
    simp only [Bool.false_eq_true, if_false]
    rw [hpool0]
    dsimp only
    rw [← hn]
    rw [if_pos ⟨by omega, hpool⟩, hmp2]
  · rw [hms, List.mem_filterMap]
    constructor
    · rintro ⟨q', hq', heq⟩
      by_cases hg : goodMatch L ratio_thresh (dist q') (p q').1 (p q').2
      · rw [if_pos hg] at heq
        simp only [Option.some.injEq, Prod.mk.injEq] at heq
        rcases heq with ⟨hq'q, -⟩
        subst hq'q
        rw [hpq] at hg
        simpa [goodMatch] using hg
      · rw [if_neg hg] at heq
        exact absurd heq (by simp)
    · intro hcond
      refine ⟨q, by simpa using hq, ?_⟩
      rw [hpq]
      rw [if_pos (by simpa [goodMatch] using hcond)]
  · intro m hm
    rw [hms, List.mem_filterMap] at hm
    rcases hm with ⟨q', hq', heq⟩
    by_cases hg : goodMatch L ratio_thresh (dist q') (p q').1 (p q').2
    · rw [if_pos hg] at heq
      simp only [Option.some.injEq] at heq
      refine ⟨(p q').2, ?_, ?_⟩
      · rw [← heq]
        simpa using hpeq q'
      · rw [← heq]
        simpa using hq'
    · rw [if_neg hg] at heq
      exact absurd heq (by simp)

/-- Witness for C2: one place frame with two descriptors labelled by
landmarks 5 and 6; query descriptor 0 is at distance 1 from pool index 0 and
distance 2 from pool index 1, and 1/2 is below the threshold 7/10, so the
pair (0, 0) is accepted. -/
theorem match_against_place_accept_iff_witness :
    ∃ ms,
      match_against_place [0]
          (fun _ => (⟨[5, 6], [10, 20], [(0, 0), (1, 1)]⟩ : LocalDbItem ℕ))
          [3] (7 / 10)
          (fun _ j => if j = 0 then 1 else 2) false
          (fun _ => ⟨[], []⟩) (fun _ => ⟨[]⟩)
        = some (ms, placeLmsOf [0]
            (fun _ => (⟨[5, 6], [10, 20], [(0, 0), (1, 1)]⟩ :
              LocalDbItem ℕ))) ∧
      ((0, 0) ∈ ms ↔
        ((placeLmsOf [0] (fun _ => (⟨[5, 6], [10, 20], [(0, 0), (1, 1)]⟩ :
              LocalDbItem ℕ))).getD 0 0
            = (placeLmsOf [0] (fun _ => (⟨[5, 6], [10, 20], [(0, 0), (1, 1)]⟩ :
              LocalDbItem ℕ))).getD 1 0 ∨
         (if (0 : ℕ) = 0 then (1 : ℚ) else 2) / (if (1 : ℕ) = 0 then (1 : ℚ) else 2)
           < 7 / 10)) ∧
      (∀ m ∈ ms, ∃ j2,
        knnPair ((fun _ j => if j = 0 then (1 : ℚ) else 2) m.1)
            (placeDescOf [0] (fun _ => (⟨[5, 6], [10, 20], [(0, 0), (1, 1)]⟩ :
              LocalDbItem ℕ))).length
          = some (m.2, j2) ∧ m.1 < ([3] : List ℕ).length) := by
  refine match_against_place_accept_iff [0]
    (fun _ => ⟨[5, 6], [10, 20], [(0, 0), (1, 1)]⟩) [3] (7 / 10)
    (fun _ j => if j = 0 then 1 else 2) (fun _ => ⟨[], []⟩) (fun _ => ⟨[]⟩)
    0 0 1 (by simp) (by simp) (by simp [placeDescOf]) ?_
  show knnPair (fun j => if j = 0 then (1 : ℚ) else 2) 2 = some (0, 1)
  rw [knnPair]
  norm_num [minIdxBy, List.range_succ]

/-- C8 (corrected): with a NON-EMPTY place frame list whose pool
construction completes — expansion disabled, or enabled with all lookups
succeeding and at least one appended observation — an empty query descriptor
set or a pooled descriptor set of size at most one yields the empty match
list without failing. -/
theorem match_against_place_degenerate {Desc : Type} (frameIds : List ℕ)
    (localDb : ℕ → LocalDbItem Desc) (queryDesc : List Desc)
    (ratio_thresh : ℚ) (dist : ℕ → ℕ → ℚ) (expand_obs : Bool)
    (graph : ℤ → PointItem) (modelInfo : ℕ → ModelInfoItem)
    (lms : List ℤ) (descs : List Desc)
    (hne : frameIds ≠ [])
    (hpool : poolOf frameIds localDb expand_obs graph modelInfo
      = some (lms, descs))
    (hdeg : queryDesc = [] ∨ descs.length ≤ 1) :
    match_against_place frameIds localDb queryDesc ratio_thresh dist
        expand_obs graph modelInfo = some ([], lms) := by
  have hempty : frameIds.isEmpty = false := List.isEmpty_eq_false.mpr hne
  rw [match_against_place, hempty]
  simp only [Bool.false_eq_true, if_false]
  rw [hpool]
  dsimp only
  rw [if_neg]
  rintro ⟨h1, h2⟩
  rcases hdeg with h | h
  · rw [h] at h1
    simp at h1
  · omega

/-- Witness for C8 (corrected) at a concrete input: one frame, empty query,
expansion disabled. -/
theorem match_against_place_degenerate_witness :
    match_against_place [0] (fun _ => (⟨[5], [7], [(0, 0)]⟩ : LocalDbItem ℕ))
        [] (7 / 10) (fun _ _ => 0) false (fun _ => ⟨[], []⟩) (fun _ => ⟨[]⟩)
      = some ([], [5]) := by
  have h := match_against_place_degenerate [0]
    (fun _ => (⟨[5], [7], [(0, 0)]⟩ : LocalDbItem ℕ)) [] (7 / 10)
    (fun _ _ => 0) false (fun _ => ⟨[], []⟩) (fun _ => ⟨[]⟩) [5] [7]
    (by simp) rfl (Or.inl rfl)
  simpa using h

/-- C8 counterexample: the claim fails on three concrete degenerate inputs
with empty query sets, on which the source raises instead of returning an
empty match list: an EMPTY place frame list (`np.concatenate` needs at least
one array, source line 83); expansion enabled on a place whose only landmark
has no observer outside the place, so the expansion appends nothing and
`np.append(place_desc, [], axis=0)` raises (source lines 104-107); and
expansion enabled with an outside observer whose `point3D_ids` do not
contain the landmark, so `np.where(...)[0][0]` raises (source line 101). -/
theorem match_against_place_empty_place_fails :
    (match_against_place [] (fun _ => (⟨[], [], []⟩ : LocalDbItem ℕ)) []
      (7 / 10) (fun _ _ => 0) false (fun _ => ⟨[], []⟩) (fun _ => ⟨[]⟩)
      = none) ∧
    (match_against_place [0]
      (fun _ => (⟨[5], [10], [(0, 0)]⟩ : LocalDbItem ℕ)) []
      (7 / 10) (fun _ _ => 0) true (fun _ => ⟨[0], [0]⟩) (fun _ => ⟨[]⟩)
      = none) ∧
    (match_against_place [0]
      (fun _ => (⟨[5], [10], [(0, 0)]⟩ : LocalDbItem ℕ)) []
      (7 / 10) (fun _ _ => 0) true (fun _ => ⟨[0, 1], [0, 0]⟩)
      (fun _ => ⟨[]⟩) = none) := ⟨rfl, rfl, rfl⟩

/-- C5: when `expand_obs` is set, and every expansion target resolves (the
data-model invariant: an observing frame's positive `point3D_ids` contain
the landmark, at index `dIdx t`, and its descriptor list covers that index),
the entries appended to the pool are exactly, for every landmark of the pool
and every frame observing it that is not part of the place, the pair of that
landmark id with that frame's descriptor at the index corresponding to the
landmark; the place frame list itself is untouched — whenever
`match_against_place` returns, the pooled landmark array is the unchanged
base pool of `frameIds` followed by exactly the appended landmark ids.  When
there is no expansion target at all the call raises instead (the ValueError
of `np.append(place_desc, [], axis=0)`, source lines 104-107), so nothing is
asserted to be appended there. -/
theorem expand_obs_appends {Desc : Type} (frameIds : List ℕ)
    (localDb : ℕ → LocalDbItem Desc) (graph : ℤ → PointItem)
    (modelInfo : ℕ → ModelInfoItem) (dIdx : ℤ × ℕ → ℕ) (dsc : ℤ × ℕ → Desc)
    (h1 : ∀ t ∈ obsTargets frameIds graph (placeLmsOf frameIds localDb),
      lookupDescIdx modelInfo t.2 t.1 = some (dIdx t))
    (h2 : ∀ t ∈ obsTargets frameIds graph (placeLmsOf frameIds localDb),
      (localDb t.2).descriptors.get? (dIdx t) = some (dsc t)) :
    expandEntries frameIds localDb graph modelInfo
        (placeLmsOf frameIds localDb)
      = some ((obsTargets frameIds graph (placeLmsOf frameIds localDb)).map
          (fun t => (t.1, dsc t))) ∧
    (∀ (queryDesc : List Desc) (ratio_thresh : ℚ) (dist : ℕ → ℕ → ℚ)
        (ms : List (ℕ × ℕ)) (lms : List ℤ),
      match_against_place frameIds localDb queryDesc ratio_thresh dist true
          graph modelInfo = some (ms, lms) →
      lms = placeLmsOf frameIds localDb ++
        (obsTargets frameIds graph (placeLmsOf frameIds localDb)).map
          Prod.fst) ∧
    (obsTargets frameIds graph (placeLmsOf frameIds localDb) = [] →
      ∀ (queryDesc : List Desc) (ratio_thresh : ℚ) (dist : ℕ → ℕ → ℚ),
        match_against_place frameIds localDb queryDesc ratio_thresh dist true
          graph modelInfo = none) := by
  have hexp : expandEntries frameIds localDb graph modelInfo
      (placeLmsOf frameIds localDb)
      = some ((obsTargets frameIds graph (placeLmsOf frameIds localDb)).map
          (fun t => (t.1, dsc t))) := by
    apply mapM_option_eq_some_map
    intro t ht
    rw [obsEntry]
    rw [h1 t ht]
    simp only [Option.bind_eq_bind, Option.some_bind]
    rw [h2 t ht]
    rfl
  have hpool : poolOf frameIds localDb true graph modelInfo
      = if ((obsTargets frameIds graph (placeLmsOf frameIds localDb)).map
            (fun t => (t.1, dsc t))).isEmpty then none
        else
          some (placeLmsOf frameIds localDb ++
              ((obsTargets frameIds graph (placeLmsOf frameIds localDb)).map
                (fun t => (t.1, dsc t))).map Prod.fst,
            placeDescOf frameIds localDb ++
              ((obsTargets frameIds graph (placeLmsOf frameIds localDb)).map
                (fun t => (t.1, dsc t))).map Prod.snd) := by
    rw [poolOf]
    simp only [eq_self_iff_true, if_true]
    rw [hexp]
  refine ⟨hexp, ?_, ?_⟩
  · intro queryDesc ratio_thresh dist ms lms hmatch
    rw [match_against_place] at hmatch
    rcases hfe : frameIds.isEmpty with _ | _
    · rw [hfe] at hmatch
      simp only [Bool.false_eq_true, if_false] at hmatch
      rw [hpool] at hmatch
      by_cases hE : ((obsTargets frameIds graph
          (placeLmsOf frameIds localDb)).map
            (fun t => (t.1, dsc t))).isEmpty = true
      · rw [if_pos hE] at hmatch
        exact absurd hmatch (by simp)
      · rw [if_neg hE] at hmatch
        dsimp only at hmatch
        split at hmatch
        · split at hmatch
          · exact absurd hmatch (by simp)
          · simp only [Option.some.injEq, Prod.mk.injEq] at hmatch
            rw [← hmatch.2, List.map_map]
            exact rfl
        · simp only [Option.some.injEq, Prod.mk.injEq] at hmatch
          rw [← hmatch.2, List.map_map]
          exact rfl
    · rw [hfe] at hmatch
      simp at hmatch
  · intro htargets queryDesc ratio_thresh dist
    have hpoolnone : poolOf frameIds localDb true graph modelInfo = none := by
      rw [hpool, htargets]
      rfl
    rw [match_against_place]
    rcases hfe : frameIds.isEmpty with _ | _
    · simp only [Bool.false_eq_true, if_false]
      rw [hpoolnone]
    · simp

/-- Witness for C5: a place of one frame (frame 0, landmark 5); landmark 5 is
also observed by frame 1, whose positive `point3D_ids` hold landmark 5 at
index 0 and whose descriptor there is 42, so exactly the entry (5, 42) is
appended. -/
theorem expand_obs_appends_witness :
    (expandEntries [0]
        (fun f => if f = 0 then (⟨[5], [10], [(0, 0)]⟩ : LocalDbItem ℕ)
          else ⟨[5], [42], [(0, 0)]⟩)
        (fun lm => if lm = 5 then ⟨[0, 1], [0, 0]⟩ else ⟨[], []⟩)
        (fun f => if f = 1 then ⟨[-1, 5]⟩ else ⟨[]⟩)
        (placeLmsOf [0]
          (fun f => if f = 0 then (⟨[5], [10], [(0, 0)]⟩ : LocalDbItem ℕ)
            else ⟨[5], [42], [(0, 0)]⟩))
      = some ((obsTargets [0]
          (fun lm => if lm = 5 then ⟨[0, 1], [0, 0]⟩ else ⟨[], []⟩)
          (placeLmsOf [0]
            (fun f => if f = 0 then (⟨[5], [10], [(0, 0)]⟩ : LocalDbItem ℕ)
              else ⟨[5], [42], [(0, 0)]⟩))).map
          (fun t => (t.1, (fun _ => (42 : ℕ)) t)))) ∧
    (∀ (queryDesc : List ℕ) (ratio_thresh : ℚ) (dist : ℕ → ℕ → ℚ)
        (ms : List (ℕ × ℕ)) (lms : List ℤ),
      match_against_place [0]
          (fun f => if f = 0 then (⟨[5], [10], [(0, 0)]⟩ : LocalDbItem ℕ)
            else ⟨[5], [42], [(0, 0)]⟩) queryDesc ratio_thresh dist true
          (fun lm => if lm = 5 then ⟨[0, 1], [0, 0]⟩ else ⟨[], []⟩)
          (fun f => if f = 1 then ⟨[-1, 5]⟩ else ⟨[]⟩) = some (ms, lms) →
      lms = placeLmsOf [0]
          (fun f => if f = 0 then (⟨[5], [10], [(0, 0)]⟩ : LocalDbItem ℕ)
            else ⟨[5], [42], [(0, 0)]⟩) ++
        (obsTargets [0]
          (fun lm => if lm = 5 then ⟨[0, 1], [0, 0]⟩ else ⟨[], []⟩)
          (placeLmsOf [0]
            (fun f => if f = 0 then (⟨[5], [10], [(0, 0)]⟩ : LocalDbItem ℕ)
              else ⟨[5], [42], [(0, 0)]⟩))).map Prod.fst) ∧
    (obsTargets [0]
        (fun lm => if lm = 5 then ⟨[0, 1], [0, 0]⟩ else ⟨[], []⟩)
        (placeLmsOf [0]
          (fun f => if f = 0 then (⟨[5], [10], [(0, 0)]⟩ : LocalDbItem ℕ)
            else ⟨[5], [42], [(0, 0)]⟩)) = [] →
      ∀ (queryDesc : List ℕ) (ratio_thresh : ℚ) (dist : ℕ → ℕ → ℚ),
        match_against_place [0]
          (fun f => if f = 0 then (⟨[5], [10], [(0, 0)]⟩ : LocalDbItem ℕ)
            else ⟨[5], [42], [(0, 0)]⟩) queryDesc ratio_thresh dist true
          (fun lm => if lm = 5 then ⟨[0, 1], [0, 0]⟩ else ⟨[], []⟩)
          (fun f => if f = 1 then ⟨[-1, 5]⟩ else ⟨[]⟩) = none) := by
  have htargets : obsTargets [0]
      (fun lm => if lm = 5 then ⟨[0, 1], [0, 0]⟩ else ⟨[], []⟩)
      (placeLmsOf [0]
        (fun f => if f = 0 then (⟨[5], [10], [(0, 0)]⟩ : LocalDbItem ℕ)
          else ⟨[5], [42], [(0, 0)]⟩)) = [(5, 1)] := rfl
  refine expand_obs_appends [0]
    (fun f => if f = 0 then (⟨[5], [10], [(0, 0)]⟩ : LocalDbItem ℕ)
      else ⟨[5], [42], [(0, 0)]⟩)
    (fun lm => if lm = 5 then ⟨[0, 1], [0, 0]⟩ else ⟨[], []⟩)
    (fun f => if f = 1 then ⟨[-1, 5]⟩ else ⟨[]⟩)
    (fun _ => 0) (fun _ => 42) ?_ ?_
  · intro t ht
    rw [htargets] at ht
    simp only [List.mem_singleton] at ht
    subst ht
    rfl
  · intro t ht
    rw [htargets] at ht
    simp only [List.mem_singleton] at ht
    subst ht
    rfl

/-- Covisibility reachability step used by the clustering (source lines
68-71): from frame `x` one reaches frame `y` when some landmark of `x` lists
`y` among its observing frames. -/
def covisAdj {Desc : Type} (localDb : ℕ → LocalDbItem Desc)
    (points : ℤ → PointItem) (x y : ℕ) : Prop :=
  ∃ lm ∈ (localDb x).landmark_ids, y ∈ (points lm).image_ids

/-- Breadth-first exploration of one covisibility component: the `while
len(queue)` loop of `covis_clustering` (source lines 59-73).  `queue` is the
frontier, `visited` the global visited set, `comp` the component built so
far; newly connected frames are the observers of the current frame's
landmarks, intersected with `frame_ids` and stripped of visited frames. -/
def covisBfs {Desc : Type} (frameIds : List ℕ) (localDb : ℕ → LocalDbItem Desc)
    (points : ℤ → PointItem) :
    List ℕ → Finset ℕ → List ℕ → List ℕ × Finset ℕ
  | [], visited, comp => (comp, visited)
  | e :: rest, visited, comp =>
    if e ∈ visited then
      covisBfs frameIds localDb points rest visited comp
    else
      let visited' := insert e visited
      let connected := ((localDb e).landmark_ids.flatMap
          (fun lm => (points lm).image_ids)).filter
        (fun i => decide (i ∈ frameIds) && !(decide (i ∈ visited')))
      covisBfs frameIds localDb points (rest ++ connected) visited' (comp ++ [e])
termination_by queue visited _ =>
  (((frameIds.toFinset ∪ queue.toFinset) \ visited).card, queue.length)
decreasing_by
  · have hsub : ((frameIds.toFinset ∪ rest.toFinset) \ visited)
        ⊆ ((frameIds.toFinset ∪ (e :: rest).toFinset) \ visited) := by
      intro x hx
      simp only [Finset.mem_sdiff, Finset.mem_union, List.mem_toFinset,
        List.toFinset_cons, Finset.mem_insert] at hx ⊢
      tauto
    rcases lt_or_eq_of_le (Finset.card_le_card hsub) with h | h
    · exact Prod.Lex.left _ _ h
    · rw [h]
      exact Prod.Lex.right _ (by simp)
  · apply Prod.Lex.left
    apply Finset.card_lt_card
    constructor
    · intro x hx
      simp only [Finset.mem_sdiff, Finset.mem_union, List.mem_toFinset,
        Finset.mem_insert, List.toFinset_cons, List.mem_append,
        List.mem_filter] at hx ⊢
      rcases hx with ⟨hx1, hx2⟩
      push_neg at hx2
      constructor
      · rcases hx1 with h | h
        · tauto
        · rcases h with h | h
          · tauto
          · simp only [List.mem_filter, Bool.and_eq_true, decide_eq_true_eq,
              Bool.not_eq_true', decide_eq_false_iff_not] at h
            tauto
      · tauto
    · intro hsub
      have he : e ∈ (frameIds.toFinset ∪ (e :: rest).toFinset) \ visited := by
        simp_all
      have := hsub he
      simp at this

/-- Outer loop of `covis_clustering` (source lines 49-73): start a new
component at every not-yet-visited frame of `frame_ids`, in list order. -/
def covisLoop {Desc : Type} (frameIds : List ℕ)
    (localDb : ℕ → LocalDbItem Desc) (points : ℤ → PointItem) :
    List ℕ → Finset ℕ → List (List ℕ) → List (List ℕ)
  | [], _, comps => comps
  | f :: rest, visited, comps =>
    if f ∈ visited then
      covisLoop frameIds localDb points rest visited comps
    else
      let r := covisBfs frameIds localDb points [f] visited []
      covisLoop frameIds localDb points rest r.2 (comps ++ [r.1])

/-- Embedding of `covis_clustering` (source lines 44-76): explore components
and sort them by decreasing size (`sorted(components.values(), key=len,
reverse=True)`). -/
def covis_clustering {Desc : Type} (frameIds : List ℕ)
    (localDb : ℕ → LocalDbItem Desc) (points : ℤ → PointItem) :
    List (List ℕ) :=
  (covisLoop frameIds localDb points frameIds ∅ []).mergeSort
    (fun a b => decide (b.length ≤ a.length))

/-- Invariant of the components accumulated by the clustering loop, relative
to the set `V` of frames visited before them: each component is disjoint
from everything visited before it and closed under the covisibility step
restricted to `frame_ids`. -/
def PlacesOk {Desc : Type} (frameIds : List ℕ)
    (localDb : ℕ → LocalDbItem Desc) (points : ℤ → PointItem) :
    Finset ℕ → List (List ℕ) → Prop
  | _, [] => True
  | V, comp :: rest =>
      (∀ x ∈ comp, x ∉ V) ∧
      (∀ x ∈ comp, ∀ y, covisAdj localDb points x y → y ∈ frameIds →
        y ∈ V ∪ comp.toFinset) ∧
      PlacesOk frameIds localDb points (V ∪ comp.toFinset) rest

/-- Helper: the visited set only grows during the breadth-first
exploration. -/
theorem covisBfs_visited_mono {Desc : Type} (frameIds : List ℕ)
    (localDb : ℕ → LocalDbItem Desc) (points : ℤ → PointItem) :
    ∀ (q : List ℕ) (V : Finset ℕ) (c : List ℕ),
      V ⊆ (covisBfs frameIds localDb points q V c).2 := by
  intro q V c
  induction q, V, c using covisBfs.induct frameIds localDb points with
  | case1 V c => rw [covisBfs]
  | case2 e rest V c he ih =>
      rw [covisBfs]
      simp only [he, if_true]
      exact ih
  | case3 e rest V c he v' conn =>
      rename_i ih
      rw [covisBfs]
      simp only [he, if_false]
      intro x hx
      exact ih (Finset.mem_insert_of_mem hx)

/-- Helper: the component accumulator is preserved by the exploration. -/
theorem covisBfs_comp_sub {Desc : Type} (frameIds : List ℕ)
    (localDb : ℕ → LocalDbItem Desc) (points : ℤ → PointItem) :
    ∀ (q : List ℕ) (V : Finset ℕ) (c : List ℕ),
      ∀ x ∈ c, x ∈ (covisBfs frameIds localDb points q V c).1 := by
  intro q V c
  induction q, V, c using covisBfs.induct frameIds localDb points with
  | case1 V c =>
      rw [covisBfs]
      exact fun x hx => hx
  | case2 e rest V c he ih =>
      rw [covisBfs]
      simp only [he, if_true]
      exact ih
  | case3 e rest V c he v' conn =>
      rename_i ih
      rw [covisBfs]
      simp only [he, if_false]
      intro x hx
      exact ih x (List.mem_append.mpr (Or.inl hx))

/-- Helper: every frame of the frontier ends up visited. -/
theorem covisBfs_queue_visited {Desc : Type} (frameIds : List ℕ)
    (localDb : ℕ → LocalDbItem Desc) (points : ℤ → PointItem) :
    ∀ (q : List ℕ) (V : Finset ℕ) (c : List ℕ),
      ∀ x ∈ q, x ∈ (covisBfs frameIds localDb points q V c).2 := by
  intro q V c
  induction q, V, c using covisBfs.induct frameIds localDb points with
  | case1 V c => intro x hx; simp at hx
  | case2 e rest V c he ih =>
      rw [covisBfs]
      simp only [he, if_true]
      intro x hx
      rcases List.mem_cons.mp hx with h | h
      · exact h ▸ covisBfs_visited_mono frameIds localDb points rest V c he
      · exact ih x h
  | case3 e rest V c he v' conn =>
      rename_i ih
      rw [covisBfs]
      simp only [he, if_false]
      intro x hx
      rcases List.mem_cons.mp hx with h | h
      · subst h
        exact covisBfs_visited_mono frameIds localDb points _ _ _
          (Finset.mem_insert_self x V)
      · exact ih x (List.mem_append.mpr (Or.inl h))

/-- Helper: every visited frame comes from the initial visited set, the
frontier or `frame_ids`. -/
theorem covisBfs_visited_sub {Desc : Type} (frameIds : List ℕ)
    (localDb : ℕ → LocalDbItem Desc) (points : ℤ → PointItem) :
    ∀ (q : List ℕ) (V : Finset ℕ) (c : List ℕ),
      (covisBfs frameIds localDb points q V c).2
        ⊆ V ∪ q.toFinset ∪ frameIds.toFinset := by
  intro q V c
  induction q, V, c using covisBfs.induct frameIds localDb points with
  | case1 V c =>
      rw [covisBfs]
      intro x hx
      simp only [Finset.mem_union]
      exact Or.inl (Or.inl hx)
  | case2 e rest V c he ih =>
      rw [covisBfs]
      simp only [he, if_true]
      intro x hx
      have := ih hx
      simp only [Finset.mem_union, List.mem_toFinset, List.mem_cons] at this ⊢
      tauto
  | case3 e rest V c he v' conn =>
      rename_i ih
      rw [covisBfs]
      simp only [he, if_false]
      intro x hx
      have := ih hx
      unfold v' conn at this
      simp only [Finset.mem_union, List.mem_toFinset, List.mem_append,
        Finset.mem_insert, List.mem_cons, List.mem_filter, Bool.and_eq_true,
        decide_eq_true_eq] at this ⊢
      tauto

/-- Helper: every frame of the produced component either was already in the
accumulator or is a fresh visit: not previously visited, visited at the end,
and drawn from the frontier or from `frame_ids`. -/
theorem covisBfs_comp_charac {Desc : Type} (frameIds : List ℕ)
    (localDb : ℕ → LocalDbItem Desc) (points : ℤ → PointItem) :
    ∀ (q : List ℕ) (V : Finset ℕ) (c : List ℕ),
      ∀ x ∈ (covisBfs frameIds localDb points q V c).1,
        x ∈ c ∨ (x ∉ V ∧ x ∈ (covisBfs frameIds localDb points q V c).2 ∧
          (x ∈ q ∨ x ∈ frameIds)) := by
  intro q V c
  induction q, V, c using covisBfs.induct frameIds localDb points with
  | case1 V c =>
      rw [covisBfs]
      exact fun x hx => Or.inl hx
  | case2 e rest V c he ih =>
      rw [covisBfs]
      simp only [he, if_true]
      intro x hx
      rcases ih x hx with h | ⟨h1, h2, h3⟩
      · exact Or.inl h
      · refine Or.inr ⟨h1, h2, ?_⟩
        rcases h3 with h | h
        · exact Or.inl (List.mem_cons_of_mem e h)
        · exact Or.inr h
  | case3 e rest V c he v' conn =>
      rename_i ih
      rw [covisBfs]
      simp only [he, if_false]
      intro x hx
      rcases ih x hx with h | ⟨h1, h2, h3⟩
      · rcases List.mem_append.mp h with h | h
        · exact Or.inl h
        · simp only [List.mem_singleton] at h
          subst h
          refine Or.inr ⟨he, ?_, Or.inl (List.mem_cons_self x rest)⟩
          exact covisBfs_visited_mono frameIds localDb points _ _ _
            (Finset.mem_insert_self x V)
      · refine Or.inr ⟨fun hV => h1 (Finset.mem_insert_of_mem hV), h2, ?_⟩
        rcases h3 with h | h
        · rcases List.mem_append.mp h with h | h
          · exact Or.inl (List.mem_cons_of_mem e h)
          · unfold conn at h
            simp only [List.mem_filter, Bool.and_eq_true, decide_eq_true_eq] at h
            exact Or.inr h.2.1
        · exact Or.inr h

/-- Helper: the final visited set is covered by the initial one and the
produced component. -/
theorem covisBfs_visited_cover {Desc : Type} (frameIds : List ℕ)
    (localDb : ℕ → LocalDbItem Desc) (points : ℤ → PointItem) :
    ∀ (q : List ℕ) (V : Finset ℕ) (c : List ℕ),
      ∀ x ∈ (covisBfs frameIds localDb points q V c).2,
        x ∈ V ∨ x ∈ (covisBfs frameIds localDb points q V c).1 := by
  intro q V c
  induction q, V, c using covisBfs.induct frameIds localDb points with
  | case1 V c =>
      rw [covisBfs]
      exact fun x hx => Or.inl hx
  | case2 e rest V c he ih =>
      rw [covisBfs]
      simp only [he, if_true]
      exact ih
  | case3 e rest V c he v' conn =>
      rename_i ih
      rw [covisBfs]
      simp only [he, if_false]
      intro x hx
      rcases ih x hx with h | h
      · rcases Finset.mem_insert.mp h with h | h
        · subst h
          exact Or.inr (covisBfs_comp_sub frameIds localDb points _ _ _ x
            (List.mem_append.mpr (Or.inr (List.mem_singleton_self x))))
        · exact Or.inl h
      · exact Or.inr h

/-- Helper: the produced component is closed under the covisibility step
restricted to `frame_ids`, up to the final visited set. -/
theorem covisBfs_closed {Desc : Type} (frameIds : List ℕ)
    (localDb : ℕ → LocalDbItem Desc) (points : ℤ → PointItem) :
    ∀ (q : List ℕ) (V : Finset ℕ) (c : List ℕ),
      ∀ x ∈ (covisBfs frameIds localDb points q V c).1, x ∉ c →
        ∀ y, covisAdj localDb points x y → y ∈ frameIds →
          y ∈ (covisBfs frameIds localDb points q V c).2 := by
  intro q V c
  induction q, V, c using covisBfs.induct frameIds localDb points with
  | case1 V c =>
      rw [covisBfs]
      exact fun x hx hnc => absurd hx hnc
  | case2 e rest V c he ih =>
      rw [covisBfs]
      simp only [he, if_true]
      exact ih
  | case3 e rest V c he v' conn =>
      rename_i ih
      rw [covisBfs]
      simp only [he, if_false]
      intro x hx hnc y hadj hyF
      by_cases hxe : x = e
      · subst hxe
        by_cases hyv : y ∈ insert x V
        · exact covisBfs_visited_mono frameIds localDb points _ _ _ hyv
        · apply covisBfs_queue_visited frameIds localDb points _ _ _ y
          apply List.mem_append.mpr
          refine Or.inr (List.mem_filter.mpr ⟨?_, ?_⟩)
          · rcases hadj with ⟨lm, hlm, hy⟩
            exact List.mem_flatMap.mpr ⟨lm, hlm, hy⟩
          · simp only [Bool.and_eq_true, decide_eq_true_eq,
              Bool.not_eq_true', decide_eq_false_iff_not]
            exact ⟨hyF, hyv⟩
      · refine ih x hx ?_ y hadj hyF
        intro hmem
        rcases List.mem_append.mp hmem with h | h
        · exact hnc h
        · simp only [List.mem_singleton] at h
          exact hxe h

/-- Helper: a fresh component disjoint from everything seen so far and closed
up to itself can be appended to a valid component list. -/
theorem placesOk_append {Desc : Type} (frameIds : List ℕ)
    (localDb : ℕ → LocalDbItem Desc) (points : ℤ → PointItem) :
    ∀ (comps : List (List ℕ)) (V : Finset ℕ) (newC : List ℕ),
      PlacesOk frameIds localDb points V comps →
      (∀ x ∈ newC, x ∉ V ∪ comps.flatten.toFinset) →
      (∀ x ∈ newC, ∀ y, covisAdj localDb points x y → y ∈ frameIds →
        y ∈ (V ∪ comps.flatten.toFinset) ∪ newC.toFinset) →
      PlacesOk frameIds localDb points V (comps ++ [newC]) := by
  intro comps
  induction comps with
  | nil =>
      intro V newC _ hdisj hcl
      refine ⟨?_, ?_, trivial⟩
      · intro x hx
        have := hdisj x hx
        simp only [List.flatten_nil, List.toFinset_nil, Finset.union_empty]
          at this
        exact this
      · intro x hx y hadj hyF
        have := hcl x hx y hadj hyF
        simp only [List.flatten_nil, List.toFinset_nil, Finset.union_empty]
          at this
        exact this
  | cons c cs ih =>
      intro V newC hOk hdisj hcl
      obtain ⟨hd, hc, hrest⟩ := hOk
      refine ⟨hd, hc, ?_⟩
      apply ih (V ∪ c.toFinset) newC hrest
      · intro x hx
        have := hdisj x hx
        simp only [List.flatten_cons, List.toFinset_append,
          Finset.union_assoc] at this ⊢
        exact this
      · intro x hx y hadj hyF
        have := hcl x hx y hadj hyF
        simp only [List.flatten_cons, List.toFinset_append,
          Finset.union_assoc] at this ⊢
        exact this

/-- Helper: the invariant of the outer clustering loop: starting from a
visited set that is exactly the frames of the accumulated components, the
loop keeps components valid, inside `frame_ids`, and visits every frame of
the remaining worklist. -/
theorem covisLoop_inv {Desc : Type} (frameIds : List ℕ)
    (localDb : ℕ → LocalDbItem Desc) (points : ℤ → PointItem) :
    ∀ (rest : List ℕ) (V : Finset ℕ) (comps : List (List ℕ)),
      V = comps.flatten.toFinset →
      PlacesOk frameIds localDb points ∅ comps →
      (∀ x ∈ comps.flatten, x ∈ frameIds) →
      (∀ x ∈ rest, x ∈ frameIds) →
      PlacesOk frameIds localDb points ∅
          (covisLoop frameIds localDb points rest V comps) ∧
        (∀ x ∈ (covisLoop frameIds localDb points rest V comps).flatten,
          x ∈ frameIds) ∧
        (∀ x ∈ rest,
          x ∈ (covisLoop frameIds localDb points rest V comps).flatten) ∧
        (∀ x ∈ comps.flatten,
          x ∈ (covisLoop frameIds localDb points rest V comps).flatten) := by
  intro rest
  induction rest with
  | nil =>
      intro V comps hV hOk hSub hRest
      rw [covisLoop]
      exact ⟨hOk, hSub, fun x hx => absurd hx (List.not_mem_nil x), fun _ h => h⟩
  | cons f rest ih =>
      intro V comps hV hOk hSub hRest
      rw [covisLoop]
      by_cases hf : f ∈ V
      · rw [if_pos hf]
        obtain ⟨h1, h2, h3, h4⟩ := ih V comps hV hOk hSub
          (fun x hx => hRest x (List.mem_cons_of_mem f hx))
        refine ⟨h1, h2, ?_, h4⟩
        intro x hx
        rcases List.mem_cons.mp hx with h | h
        · subst h
          apply h4
          rw [hV] at hf
          exact List.mem_toFinset.mp hf
        · exact h3 x h
      · rw [if_neg hf]
        have hfF : f ∈ frameIds := hRest f (List.mem_cons_self f rest)
        set comp' := (covisBfs frameIds localDb points [f] V []).1 with hcomp'
        set V' := (covisBfs frameIds localDb points [f] V []).2 with hV'
        have hveq : V' = V ∪ comp'.toFinset := by
          apply Finset.ext
          intro x
          simp only [Finset.mem_union, List.mem_toFinset]
          constructor
          · intro hx
            exact covisBfs_visited_cover frameIds localDb points [f] V [] x hx
          · intro hx
            rcases hx with hx | hx
            · exact covisBfs_visited_mono frameIds localDb points [f] V [] hx
            · rcases covisBfs_comp_charac frameIds localDb points [f] V []
                x hx with h | ⟨-, h, -⟩
              · simp at h
              · exact h
        have hdisj : ∀ x ∈ comp', x ∉ V := by
          intro x hx
          rcases covisBfs_comp_charac frameIds localDb points [f] V [] x hx
            with h | ⟨h, -, -⟩
          · simp at h
          · exact h
        have hinF : ∀ x ∈ comp', x ∈ frameIds := by
          intro x hx
          rcases covisBfs_comp_charac frameIds localDb points [f] V [] x hx
            with h | ⟨-, -, h | h⟩
          · simp at h
          · simp only [List.mem_singleton] at h
            exact h ▸ hfF
          · exact h
        have hclosed : ∀ x ∈ comp', ∀ y, covisAdj localDb points x y →
            y ∈ frameIds → y ∈ V' := by
          intro x hx y hadj hyF
          exact covisBfs_closed frameIds localDb points [f] V [] x hx
            (List.not_mem_nil x) y hadj hyF
        have hOk' : PlacesOk frameIds localDb points ∅ (comps ++ [comp']) := by
          apply placesOk_append frameIds localDb points comps ∅ comp' hOk
          · intro x hx
            simp only [Finset.empty_union, ← hV]
            exact hdisj x hx
          · intro x hx y hadj hyF
            simp only [Finset.empty_union, ← hV]
            rw [← hveq]
            exact hclosed x hx y hadj hyF
        have hV2 : V' = (comps ++ [comp']).flatten.toFinset := by
          rw [List.flatten_append, List.toFinset_append, ← hV, hveq]
          simp [List.flatten_cons]
        have hSub' : ∀ x ∈ (comps ++ [comp']).flatten, x ∈ frameIds := by
          intro x hx
          rw [List.flatten_append, List.mem_append] at hx
          rcases hx with h | h
          · exact hSub x h
          · simp only [List.flatten_cons, List.flatten_nil,
              List.append_nil] at h
            exact hinF x h
        obtain ⟨h1, h2, h3, h4⟩ := ih V' (comps ++ [comp']) hV2 hOk' hSub'
          (fun x hx => hRest x (List.mem_cons_of_mem f hx))
        refine ⟨h1, h2, ?_, ?_⟩
        · intro x hx
          rcases List.mem_cons.mp hx with h | h
          · apply h4
            have hfV : f ∈ V' :=
              covisBfs_queue_visited frameIds localDb points [f] V [] f
                (List.mem_singleton_self f)
            rw [hV2] at hfV
            rw [h]
            exact List.mem_toFinset.mp hfV
          · exact h3 x h
        · intro x hx
          apply h4
          rw [List.flatten_append, List.mem_append]
          exact Or.inl hx

/-- Helper: every frame of a valid component list avoids the base visited
set. -/
theorem placesOk_not_base {Desc : Type} (frameIds : List ℕ)
    (localDb : ℕ → LocalDbItem Desc) (points : ℤ → PointItem) :
    ∀ (comps : List (List ℕ)) (V : Finset ℕ),
      PlacesOk frameIds localDb points V comps →
      ∀ c ∈ comps, ∀ x ∈ c, x ∉ V := by
  intro comps
  induction comps with
  | nil => intro V _ c hc; simp at hc
  | cons c cs ih =>
      intro V hOk c' hc' x hx
      obtain ⟨hd, -, hrest⟩ := hOk
      rcases List.mem_cons.mp hc' with h | h
      · exact hd x (h ▸ hx)
      · intro hV
        exact ih (V ∪ c.toFinset) hrest c' h x hx (Finset.mem_union_left _ hV)

/-- Helper: a valid component list is pairwise disjoint. -/
theorem placesOk_pairwise {Desc : Type} (frameIds : List ℕ)
    (localDb : ℕ → LocalDbItem Desc) (points : ℤ → PointItem) :
    ∀ (comps : List (List ℕ)) (V : Finset ℕ),
      PlacesOk frameIds localDb points V comps →
      comps.Pairwise (fun p q' => ∀ x ∈ p, x ∉ q') := by
  intro comps
  induction comps with
  | nil => intro V _; exact List.Pairwise.nil
  | cons c cs ih =>
      intro V hOk
      obtain ⟨-, -, hrest⟩ := hOk
      refine List.Pairwise.cons ?_ (ih (V ∪ c.toFinset) hrest)
      intro c' hc' x hx hx'
      exact placesOk_not_base frameIds localDb points cs (V ∪ c.toFinset)
        hrest c' hc' x hx'
        (Finset.mem_union_right _ (List.mem_toFinset.mpr hx))

/-- Helper: in a valid component list, two frames of `frame_ids` adjacent in
both directions and avoiding the base visited set lie in the same
component. -/
theorem placesOk_same_comp {Desc : Type} (frameIds : List ℕ)
    (localDb : ℕ → LocalDbItem Desc) (points : ℤ → PointItem) :
    ∀ (comps : List (List ℕ)) (V : Finset ℕ),
      PlacesOk frameIds localDb points V comps →
      ∀ a b ca cb, ca ∈ comps → cb ∈ comps → a ∈ ca → b ∈ cb →
        covisAdj localDb points a b → b ∈ frameIds →
        covisAdj localDb points b a → a ∈ frameIds →
        a ∉ V → b ∉ V → ca = cb := by
  intro comps
  induction comps with
  | nil => intro V _ a b ca cb hca; simp at hca
  | cons c cs ih =>
      intro V hOk a b ca cb hca hcb ha hb hab hbF hba haF haV hbV
      obtain ⟨hd, hcl, hrest⟩ := hOk
      rcases List.mem_cons.mp hca with h1 | h1 <;>
        rcases List.mem_cons.mp hcb with h2 | h2
      · rw [h1, h2]
      · exfalso
        have hbc : b ∈ V ∪ c.toFinset := hcl a (h1 ▸ ha) b hab hbF
        have : b ∉ V ∪ c.toFinset :=
          placesOk_not_base frameIds localDb points cs (V ∪ c.toFinset)
            hrest cb h2 b hb
        exact this hbc
      · exfalso
        have hac : a ∈ V ∪ c.toFinset := hcl b (h2 ▸ hb) a hba haF
        have : a ∉ V ∪ c.toFinset :=
          placesOk_not_base frameIds localDb points cs (V ∪ c.toFinset)
            hrest ca h1 a ha
        exact this hac
      · refine ih (V ∪ c.toFinset) hrest a b ca cb h1 h2 ha hb hab hbF hba
          haF ?_ ?_
        · exact placesOk_not_base frameIds localDb points cs (V ∪ c.toFinset)
            hrest ca h1 a ha
        · exact placesOk_not_base frameIds localDb points cs (V ∪ c.toFinset)
            hrest cb h2 b hb

/-- C3: the places returned by `covis_clustering` are pairwise disjoint,
their union is exactly the input frame set, and they are sorted by
non-increasing size. -/
theorem covis_clustering_partition {Desc : Type} (frameIds : List ℕ)
    (localDb : ℕ → LocalDbItem Desc) (points : ℤ → PointItem) :
    (covis_clustering frameIds localDb points).Pairwise
        (fun p q' => ∀ x ∈ p, x ∉ q') ∧
    (covis_clustering frameIds localDb points).flatten.toFinset
        = frameIds.toFinset ∧
    (covis_clustering frameIds localDb points).Pairwise
        (fun p q' => q'.length ≤ p.length) := by
  obtain ⟨hOk, hSub, hcover, -⟩ :=
    covisLoop_inv frameIds localDb points frameIds ∅ [] (by simp) trivial
      (by simp) (fun x hx => hx)
  have hperm : (covis_clustering frameIds localDb points).Perm
      (covisLoop frameIds localDb points frameIds ∅ []) :=
    List.mergeSort_perm _ _
  refine ⟨?_, ?_, ?_⟩
  · rw [List.Perm.pairwise_iff (fun h x hx hx' => h x hx' hx) hperm]
    exact placesOk_pairwise frameIds localDb points _ ∅ hOk
  · have hpf := hperm.flatten
    have hfs : (covis_clustering frameIds localDb points).flatten.toFinset
        = (covisLoop frameIds localDb points frameIds ∅ []).flatten.toFinset := by
      ext x
      simp [hpf.mem_iff]
    rw [hfs]
    ext x
    simp only [List.mem_toFinset]
    exact ⟨fun h => hSub x h, fun h => hcover x h⟩
  · have := @List.sorted_mergeSort (List ℕ)
      (fun a b => decide (b.length ≤ a.length))
      (fun a b c hab hbc => by
        simp only [decide_eq_true_eq] at hab hbc ⊢
        omega)
      (fun a b => by
        rcases Nat.le_total b.length a.length with h | h <;> simp [h])
      (covisLoop frameIds localDb points frameIds ∅ [])
    refine this.imp ?_
    intro a b h
    simpa using h

/-- Helper: a frame that no other worklist-eligible frame reaches is never
visited by an exploration it does not start. -/
theorem covisBfs_avoid {Desc : Type} (frameIds : List ℕ)
    (localDb : ℕ → LocalDbItem Desc) (points : ℤ → PointItem) (a : ℕ)
    (hiso : ∀ x ∈ frameIds, x ≠ a → ¬ covisAdj localDb points x a) :
    ∀ (q : List ℕ) (V : Finset ℕ) (c : List ℕ),
      (∀ x ∈ q, x ∈ frameIds) → a ∉ q → a ∉ V →
      a ∉ (covisBfs frameIds localDb points q V c).2 := by
  intro q V c
  induction q, V, c using covisBfs.induct frameIds localDb points with
  | case1 V c =>
      intro _ _ haV
      rw [covisBfs]
      exact haV
  | case2 e rest V c he ih =>
      intro hq haq haV
      rw [covisBfs]
      simp only [he, if_true]
      exact ih (fun x hx => hq x (List.mem_cons_of_mem e hx))
        (fun h => haq (List.mem_cons_of_mem e h)) haV
  | case3 e rest V c he v' conn =>
      rename_i ih
      intro hq haq haV
      rw [covisBfs]
      simp only [he, if_false]
      have heF : e ∈ frameIds := hq e (List.mem_cons_self e rest)
      have hea : e ≠ a := fun h => haq (h ▸ List.mem_cons_self e rest)
      apply ih
      · intro x hx
        rcases List.mem_append.mp hx with h | h
        · exact hq x (List.mem_cons_of_mem e h)
        · unfold conn at h
          simp only [List.mem_filter, Bool.and_eq_true, decide_eq_true_eq] at h
          exact h.2.1
      · intro hx
        rcases List.mem_append.mp hx with h | h
        · exact haq (List.mem_cons_of_mem e h)
        · unfold conn at h
          simp only [List.mem_filter, Bool.and_eq_true,
            decide_eq_true_eq] at h
          rcases List.mem_flatMap.mp h.1 with ⟨lm, hlm, hobs⟩
          exact hiso e heF hea ⟨lm, hlm, hobs⟩
      · intro hx
        rcases Finset.mem_insert.mp hx with h | h
        · exact hea h.symm
        · exact haV h

/-- Helper: an exploration started at a frame whose only eligible
covisibility successor is itself produces the singleton component. -/
theorem covisBfs_isolated {Desc : Type} (frameIds : List ℕ)
    (localDb : ℕ → LocalDbItem Desc) (points : ℤ → PointItem) (a : ℕ)
    (V : Finset ℕ) (haV : a ∉ V)
    (hiso1 : ∀ y, covisAdj localDb points a y → y ∈ frameIds → y = a) :
    covisBfs frameIds localDb points [a] V [] = ([a], insert a V) := by
  rw [covisBfs, if_neg haV]
  have hconn : ((localDb a).landmark_ids.flatMap
      (fun lm => (points lm).image_ids)).filter
      (fun i => decide (i ∈ frameIds) && !(decide (i ∈ insert a V))) = [] := by
    rw [List.filter_eq_nil_iff]
    intro i hi
    simp only [Bool.and_eq_true, decide_eq_true_eq, Bool.not_eq_true',
      decide_eq_false_iff_not, not_and]
    intro hiF hiv
    rcases List.mem_flatMap.mp hi with ⟨lm, hlm, hobs⟩
    have : i = a := hiso1 i ⟨lm, hlm, hobs⟩ hiF
    exact hiv (this ▸ Finset.mem_insert_self a V)
  dsimp only
  rw [hconn]
  simp only [List.nil_append, List.append_nil]
  rw [covisBfs]

/-- Helper: the clustering loop eventually emits the singleton component of
an isolated frame of the worklist. -/
theorem covisLoop_singleton {Desc : Type} (frameIds : List ℕ)
    (localDb : ℕ → LocalDbItem Desc) (points : ℤ → PointItem) (a : ℕ)
    (hiso1 : ∀ y, covisAdj localDb points a y → y ∈ frameIds → y = a)
    (hiso2 : ∀ x ∈ frameIds, x ≠ a → ¬ covisAdj localDb points x a) :
    ∀ (rest : List ℕ) (V : Finset ℕ) (comps : List (List ℕ)),
      (∀ x ∈ rest, x ∈ frameIds) →
      ((a ∈ rest ∧ a ∉ V) ∨ [a] ∈ comps) →
      [a] ∈ covisLoop frameIds localDb points rest V comps := by
  intro rest
  induction rest with
  | nil =>
      intro V comps _ hd
      rw [covisLoop]
      rcases hd with ⟨h, -⟩ | h
      · simp at h
      · exact h
  | cons f rest ih =>
      intro V comps hRest hd
      rw [covisLoop]
      by_cases hf : f ∈ V
      · rw [if_pos hf]
        apply ih V comps (fun x hx => hRest x (List.mem_cons_of_mem f hx))
        rcases hd with ⟨har, haV⟩ | h
        · refine Or.inl ⟨?_, haV⟩
          rcases List.mem_cons.mp har with h | h
          · exact absurd (h ▸ hf) haV
          · exact h
        · exact Or.inr h
      · rw [if_neg hf]
        by_cases hfa : f = a
        · subst hfa
          have hbfs := covisBfs_isolated frameIds localDb points f V hf hiso1
          apply ih _ _ (fun x hx => hRest x (List.mem_cons_of_mem f hx))
          refine Or.inr ?_
          rw [hbfs]
          simp
        · apply ih _ _ (fun x hx => hRest x (List.mem_cons_of_mem f hx))
          rcases hd with ⟨har, haV⟩ | h
          · refine Or.inl ⟨?_, ?_⟩
            · rcases List.mem_cons.mp har with h | h
              · exact absurd h.symm hfa
              · exact h
            · apply covisBfs_avoid frameIds localDb points a hiso2 [f] V []
              · intro x hx
                simp only [List.mem_singleton] at hx
                exact hx ▸ hRest f (List.mem_cons_self f rest)
              · intro hx
                simp only [List.mem_singleton] at hx
                exact hfa hx.symm
              · exact haV
          · refine Or.inr ?_
            exact List.mem_append.mpr (Or.inl h)

/-- C4: two candidate frames that co-observe a landmark (each lists it and
each is listed among its observers, the data-model consistency invariant)
land in the same place, and a candidate frame sharing no landmark with any
other candidate (no covisibility step leaves it or reaches it from another
candidate) is returned as a singleton place. -/
theorem covis_clustering_covis {Desc : Type} (frameIds : List ℕ)
    (localDb : ℕ → LocalDbItem Desc) (points : ℤ → PointItem) :
    (∀ (a b : ℕ) (lm : ℤ), a ∈ frameIds → b ∈ frameIds →
      lm ∈ (localDb a).landmark_ids → lm ∈ (localDb b).landmark_ids →
      a ∈ (points lm).image_ids → b ∈ (points lm).image_ids →
      ∃ p ∈ covis_clustering frameIds localDb points, a ∈ p ∧ b ∈ p) ∧
    (∀ a, a ∈ frameIds →
      (∀ y, covisAdj localDb points a y → y ∈ frameIds → y = a) →
      (∀ x ∈ frameIds, x ≠ a → ¬ covisAdj localDb points x a) →
      [a] ∈ covis_clustering frameIds localDb points) := by
  constructor
  · intro a b lm ha hb hla hlb hoa hob
    obtain ⟨hOk, -, hcover, -⟩ :=
      covisLoop_inv frameIds localDb points frameIds ∅ [] (by simp) trivial
        (by simp) (fun x hx => hx)
    rcases List.mem_flatten.mp (hcover a ha) with ⟨ca, hca, hina⟩
    rcases List.mem_flatten.mp (hcover b hb) with ⟨cb, hcb, hinb⟩
    have heq : ca = cb :=
      placesOk_same_comp frameIds localDb points _ ∅ hOk a b ca cb hca hcb
        hina hinb ⟨lm, hla, hob⟩ hb ⟨lm, hlb, hoa⟩ ha (by simp) (by simp)
    exact ⟨ca, (List.mergeSort_perm _ _).mem_iff.mpr hca, hina, heq ▸ hinb⟩
  · intro a ha hiso1 hiso2
    have hmem := covisLoop_singleton frameIds localDb points a hiso1 hiso2
      frameIds ∅ [] (fun x hx => hx) (Or.inl ⟨ha, by simp⟩)
    exact (List.mergeSort_perm _ _).mem_iff.mpr hmem

/-- Witness for C4: frames 0 and 1 share landmark 5 and land in one place;
frame 2 only observes landmark 7, seen by nobody else, and is returned as
the singleton place. -/
theorem covis_clustering_covis_witness :
    (∃ p ∈ covis_clustering [0, 1, 2]
        (fun f => if f = 2 then (⟨[7], [2], [(0, 0)]⟩ : LocalDbItem ℕ)
          else ⟨[5], [f], [(0, 0)]⟩)
        (fun lm => if lm = 5 then ⟨[0, 1], [0, 0]⟩
          else if lm = 7 then ⟨[2], [0]⟩ else ⟨[], []⟩),
      0 ∈ p ∧ 1 ∈ p) ∧
    [2] ∈ covis_clustering [0, 1, 2]
        (fun f => if f = 2 then (⟨[7], [2], [(0, 0)]⟩ : LocalDbItem ℕ)
          else ⟨[5], [f], [(0, 0)]⟩)
        (fun lm => if lm = 5 then ⟨[0, 1], [0, 0]⟩
          else if lm = 7 then ⟨[2], [0]⟩ else ⟨[], []⟩) := by
  have h := covis_clustering_covis [0, 1, 2]
    (fun f => if f = 2 then (⟨[7], [2], [(0, 0)]⟩ : LocalDbItem ℕ)
      else ⟨[5], [f], [(0, 0)]⟩)
    (fun lm => if lm = 5 then ⟨[0, 1], [0, 0]⟩
      else if lm = 7 then ⟨[2], [0]⟩ else ⟨[], []⟩)
  constructor
  · exact h.1 0 1 5 (by simp) (by simp) (by norm_num) (by norm_num)
      (by norm_num) (by norm_num)
  · apply h.2 2 (by simp)
    · rintro y ⟨lm, hlm, hobs⟩ -
      norm_num at hlm
      subst hlm
      norm_num at hobs
      exact hobs
    · intro x hx hne
      rintro ⟨lm, hlm, hobs⟩
      have hx2 : x = 0 ∨ x = 1 ∨ x = 2 := by simpa using hx
      rcases hx2 with h0 | h1 | h2
      · subst h0
        norm_num at hlm
        subst hlm
        norm_num at hobs
      · subst h1
        norm_num at hlm
        subst hlm
        norm_num at hobs
      · exact hne h2

end Localization
